import Mathlib

/-!
A shallow embedding of `src/dib_reader.cpp` (the DIB pixel decoder of
eomap-classic) together with proofs about its operations.

Machine integers are modelled as `Nat`/`Int` with explicit wrap-around
(`% 2 ^ 64`) where the source relies on unsigned conversion.  Bytes are
`Nat` values taken `% 256` at the points where the source narrows to a
byte.  The repository's header file (accessors such as `width()`,
`bpp()`, the byte-packing helpers and the compression enum) is not part
of `src/`; those few definitions are modelled from the spec and marked
as such.
-/

namespace DibReader

/-- Modelled from the spec: the compression enum of the missing header.
The values are the standard DIB constants (BI_RGB = 0, BI_RLE8 = 1,
BI_BITFIELDS = 3); only their distinctness matters here. -/
def RGB : Nat := 0

/-- Modelled from the spec: the BI_RLE8 compression constant. -/
def RLE8 : Nat := 1

/-- Modelled from the spec: the BI_BITFIELDS compression constant. -/
def BitFields : Nat := 3

/-- NUM_CONVERT_TABLES from src/dib_reader.cpp line 8. -/
def NUM_CONVERT_TABLES : Nat := 8

/-- Size of the static `convert_table` array
(src/dib_reader.cpp line 12): `(2 << (NUM_CONVERT_TABLES + 2)) - 2`. -/
def convert_table_size : Nat := (2 <<< (NUM_CONVERT_TABLES + 2)) - 2

/-- `get_convert_table` (src/dib_reader.cpp lines 14-17) returns a pointer
to `convert_table[(2 << bit) - 2]`; this is that starting index. -/
def convert_table_index (bit : Nat) : Nat := (2 <<< bit) - 2

/-- Number of entries of the scale table for width index `i`
(src/dib_reader.cpp line 110): `1 << (i+1)`. -/
def table_entries (i : Nat) : Nat := 1 <<< (i + 1)

/-- The indices of `convert_table` written when building the table for
width index `i` (`generate_scale_table` writes `entries` consecutive
cells starting at the pointer returned by `get_convert_table i`). -/
def table_write_indices (i : Nat) : List Nat :=
  List.range' (convert_table_index i) (table_entries i)

/-- One step-bounded trailing-zero count: `fuel` bounds the number of
loop iterations.  The source operates on a 32-bit word, so 32 steps
always suffice for a non-zero argument. -/
def ctz_go : Nat → Nat → Nat
  | 0, _ => 0
  | fuel + 1, m => if m % 2 = 1 then 0 else ctz_go fuel (m / 2) + 1

/-- Count of trailing zero bits of a 32-bit word: the fallback loop of
`decode_bitfield` (src/dib_reader.cpp lines 34-38), equivalently GCC's
`__builtin_ctz`.  The source only ever calls this on a non-zero
argument, for which at most 31 halvings occur. -/
def ctz (m : Nat) : Nat := ctz_go 32 m

/-- `decode_bitfield` (src/dib_reader.cpp lines 19-43): for m = 0 the
outputs are (0, 0); otherwise shift is the number of trailing zeros and
the mask output is m right-shifted by that amount. -/
def decode_bitfield (m : Nat) : Nat × Nat :=
  if m = 0 then (0, 0) else (ctz m, m >>> ctz m)

/-- `generate_scale_table` (src/dib_reader.cpp lines 45-51): entry i is
`i * 255 / (entries - 1)` (C int division truncates; all values are
non-negative, so this is floor division). -/
def generate_scale_table (entries : Nat) : List Nat :=
  (List.range entries).map (fun i => i * 255 / (entries - 1))

/-- The scale table for a channel of bit-width `w`: the table built in
`dib_reader::start` with `entries = 1 << w` (src/dib_reader.cpp
lines 110-113, where `w = i + 1`). -/
def scaleTable (w : Nat) : List Nat := generate_scale_table (1 <<< w)

/-- One decoded channel: the member triple (shift, reduced mask, bound
scale table) of `dib_reader`.  `table = none` models a channel whose
mask matched no scale table; the missing header initialises such a
channel's table pointer to an all-zero dummy table, so a `none` table
reads as 0 (modelled from the spec: "channels with no bound table
yield 0"). -/
structure ChannelSpec where
  shift : Nat
  mask : Nat
  table : Option (List Nat)
deriving DecidableEq

/-- The table-binding loop of `dib_reader::start` (src/dib_reader.cpp
lines 105-119): the reduced mask `m` is compared against
`~(0xFFFFFFFF << (i+1))`, i.e. `2^(i+1) - 1`, for i = 0..7, and the
matching width's table is bound. -/
def bind_table (m : Nat) : Option (List Nat) :=
  (List.range NUM_CONVERT_TABLES).foldl
    (fun acc i => if m = (1 <<< (i + 1)) - 1 then some (scaleTable (i + 1)) else acc)
    none

/-- Decode a raw 32-bit mask into a full channel spec, as
`dib_reader::start` does: `decode_bitfield` followed by the
table-binding loop on the reduced mask. -/
def mk_spec (rawMask : Nat) : ChannelSpec :=
  ⟨(decode_bitfield rawMask).1, (decode_bitfield rawMask).2,
    bind_table (decode_bitfield rawMask).2⟩

/-- The four channel members (r, g, b, a) of `dib_reader` that
`dib_reader::start` fills in. -/
structure Specs where
  r : ChannelSpec
  g : ChannelSpec
  b : ChannelSpec
  a : ChannelSpec
deriving DecidableEq

/-- The `dib_reader` object.  `width`, `height`, `depth`, `compression`,
the four raw masks, `stride`, `data_size` and the byte fetch `data` are
the inputs the missing header supplies (spec section 6); `data i` for
`i ≥ data_size` models whatever process memory lies beyond the borrowed
buffer.  Modelled from the spec: `data()` is the start of the borrowed
pixel span, i.e. equal to `data_ptr`, and `bpp()` is `depth / 8`. -/
structure dib_reader where
  width : Int
  height : Int
  depth : Int
  compression : Nat
  red_mask : Nat
  green_mask : Nat
  blue_mask : Nat
  alpha_mask : Nat
  stride : Int
  data_size : Nat
  data : Nat → Nat

/-- Modelled from the spec: bytes per pixel, `depth / 8`
(16/24/32-bit depths give 2/3/4 bytes, spec section 4.5). -/
def dib_reader.bpp (s : dib_reader) : Nat := s.depth.toNat / 8

/-- `dib_reader::start` (src/dib_reader.cpp lines 75-122): decode the
caller's masks when compression is BitFields, otherwise the fixed
defaults for the depth (5-5-5 for 16-bit, 8-8-8 for 24/32-bit) with an
absent alpha channel.  A depth other than 16/24/32 leaves the members
untouched in the source (unreachable after validation); modelled as the
all-zero specs. -/
def start (s : dib_reader) : Specs :=
  if s.compression = BitFields then
    ⟨mk_spec s.red_mask, mk_spec s.green_mask, mk_spec s.blue_mask,
      mk_spec s.alpha_mask⟩
  else if s.depth = 16 then
    ⟨mk_spec 0x00007C00, mk_spec 0x000003E0, mk_spec 0x0000001F, mk_spec 0⟩
  else if s.depth = 24 ∨ s.depth = 32 then
    ⟨mk_spec 0x00FF0000, mk_spec 0x0000FF00, mk_spec 0x000000FF, mk_spec 0⟩
  else
    ⟨mk_spec 0, mk_spec 0, mk_spec 0, mk_spec 0⟩

/-- `dib_reader::check_format` (src/dib_reader.cpp lines 53-73).  The
reduced masks `rm`, `gm`, `bm`, `am` are members set by `start`; they
are passed here as `sp`.  `maxmask = (1 << NUM_CONVERT_TABLES) - 1`. -/
def check_format (s : dib_reader) (sp : Specs) : Option String :=
  if s.width < 0 then some "Image width less than zero"
  else if s.width > 0x40000000 ∨ s.height < -0x40000000 ∨ s.height > 0x40000000 then
    some "Image dimensions out of bounds"
  else if ¬(s.depth = 16 ∨ s.depth = 24 ∨ s.depth = 32) then
    some "Unsupported bit depth"
  else if ¬(s.compression = RGB ∨ s.compression = BitFields) then
    some "Unsupported compression"
  else if sp.r.mask > (1 <<< NUM_CONVERT_TABLES) - 1 ∨
      sp.g.mask > (1 <<< NUM_CONVERT_TABLES) - 1 ∨
      sp.b.mask > (1 <<< NUM_CONVERT_TABLES) - 1 ∨
      sp.a.mask > (1 <<< NUM_CONVERT_TABLES) - 1 then
    some "Bit mask too long"
  else none

/-- Modelled from the spec: `int_pack_16_le` of the missing header packs
two bytes little-endian (spec section 4.5: "read a packed little-endian
value"). -/
def int_pack_16_le (b0 b1 : Nat) : Nat := b0 % 256 + (b1 % 256) <<< 8

/-- Modelled from the spec: `int_pack_32_le` of the missing header packs
four bytes little-endian. -/
def int_pack_32_le (b0 b1 b2 b3 : Nat) : Nat :=
  b0 % 256 + (b1 % 256) <<< 8 + (b2 % 256) <<< 16 + (b3 % 256) <<< 24

/-- The three non-null entries of the `read_fns` array of
`read_fn_for_bpp` (src/dib_reader.cpp lines 128-150): the 2-, 3- and
4-byte little-endian packed readers. -/
inductive ReadFn where
  | r16
  | r24
  | r32
deriving DecidableEq

/-- Run a packed-pixel reader on the buffer at a byte offset
(src/dib_reader.cpp lines 130-149). -/
def ReadFn.run : ReadFn → (Nat → Nat) → Nat → Nat
  | .r16, data, off => int_pack_16_le (data off) (data (off + 1))
  | .r24, data, off =>
      int_pack_32_le (data off) (data (off + 1)) (data (off + 2)) 0
  | .r32, data, off =>
      int_pack_32_le (data off) (data (off + 1)) (data (off + 2)) (data (off + 3))

/-- Number of buffer bytes a reader dereferences. -/
def ReadFn.nbytes : ReadFn → Nat
  | .r16 => 2
  | .r24 => 3
  | .r32 => 4

/-- `read_fn_for_bpp` (src/dib_reader.cpp lines 126-153): the source
returns `read_fns[bpp]` where `read_fns = {nullptr, 16-bit reader,
24-bit reader, 32-bit reader}`.  Index 0 holds the null pointer
(`none`); an index past the 4-entry array is undefined behaviour in the
source and is likewise modelled as `none`. -/
def read_fn_for_bpp (bpp : Nat) : Option ReadFn :=
  [none, some ReadFn.r16, some ReadFn.r24, some ReadFn.r32].getD bpp none

/-- The scanline selection shared by both row readers
(src/dib_reader.cpp lines 157 and 188):
`(height() < 0) ? row : height() - 1 - row`. -/
def scan_line (height row : Int) : Int :=
  if height < 0 then row else height - 1 - row

/-- The byte offset of pixel `i` of the requested row:
`linebuf - data_ptr` where `linebuf = data() + stride() * line + i * bpp()`
(src/dib_reader.cpp lines 158, 163, 181).  The pointer difference is
converted to `std::size_t`, i.e. taken modulo 2^64. -/
def pixel_offset (s : dib_reader) (row : Int) (i : Nat) : Nat :=
  ((s.stride * scan_line s.height row + (i : Int) * (s.bpp : Int)) % (2 ^ 64 : Int)).toNat

/-- The guarded pixel fetch (src/dib_reader.cpp lines 166-169): the word
is read through the dispatched reader when
`pixel_offset < data_size + bpp()`, and is 0 otherwise. -/
def read_pixel (s : dib_reader) (f : ReadFn) (off : Nat) : Nat :=
  if off < s.data_size + s.bpp then f.run s.data off else 0

/-- The buffer offsets dereferenced while fetching the pixel at byte
offset `off`: the reader's span when the guard admits the offset,
nothing otherwise. -/
def pixel_read_offsets (s : dib_reader) (f : ReadFn) (off : Nat) : List Nat :=
  if off < s.data_size + s.bpp then List.range' off f.nbytes else []

/-- One channel of one pixel (src/dib_reader.cpp lines 171-173):
`table[(pixel >> shift) & mask]`, narrowed to a byte by the
`static_cast<char>`.  A `none` table is the all-zero dummy table of the
missing header (modelled from the spec). -/
def channel_byte (c : ChannelSpec) (pixel : Nat) : Nat :=
  match c.table with
  | none => 0
  | some t => t.getD ((pixel >>> c.shift) &&& c.mask) 0 % 256

/-- The four output bytes of one pixel in `read_line_argb`
(src/dib_reader.cpp lines 171-179): memory order B, G, R, A with
`a = ((r|g|b) != 0) * 0xFF`. -/
def decode_pixel_argb (sp : Specs) (pixel : Nat) : List Nat :=
  [channel_byte sp.b pixel, channel_byte sp.g pixel, channel_byte sp.r pixel,
    if (channel_byte sp.r pixel ||| channel_byte sp.g pixel |||
        channel_byte sp.b pixel) ≠ 0 then 0xFF else 0]

/-- The four output bytes of one pixel in `read_line_abgr`
(src/dib_reader.cpp lines 202-210): memory order R, G, B, A. -/
def decode_pixel_abgr (sp : Specs) (pixel : Nat) : List Nat :=
  [channel_byte sp.r pixel, channel_byte sp.g pixel, channel_byte sp.b pixel,
    if (channel_byte sp.r pixel ||| channel_byte sp.g pixel |||
        channel_byte sp.b pixel) ≠ 0 then 0xFF else 0]

/-- The pixel loop of the row readers: `n` four-byte pixel chunks
appended left to right. -/
def read_pixels (g : Nat → List Nat) : Nat → List Nat
  | 0 => []
  | n + 1 => read_pixels g n ++ g n

/-- `dib_reader::read_line_argb` (src/dib_reader.cpp lines 155-184) as
the list of `4 * width` output bytes.  The result is `none` when the
reader dispatch yields no function (bpp 0, or an index past the
`read_fns` array), in which case the source's indirect call is
undefined. -/
def read_line_argb (s : dib_reader) (sp : Specs) (row : Int) : Option (List Nat) :=
  (read_fn_for_bpp s.bpp).map fun f =>
    read_pixels
      (fun i => decode_pixel_argb sp (read_pixel s f (pixel_offset s row i)))
      s.width.toNat

/-- `dib_reader::read_line_abgr` (src/dib_reader.cpp lines 186-215). -/
def read_line_abgr (s : dib_reader) (sp : Specs) (row : Int) : Option (List Nat) :=
  (read_fn_for_bpp s.bpp).map fun f =>
    read_pixels
      (fun i => decode_pixel_abgr sp (read_pixel s f (pixel_offset s row i)))
      s.width.toNat

/-! Concrete readers used in the closed statements below. -/

/-- A validated 1x1 24-bit uncompressed image whose single pixel is the
3 bytes 0x10, 0x20, 0x30 (followed by a padding byte inside the
buffer). -/
def s24demo : dib_reader :=
  { width := 1, height := 1, depth := 24, compression := RGB,
    red_mask := 0, green_mask := 0, blue_mask := 0, alpha_mask := 0,
    stride := 4, data_size := 4,
    data := fun i => [0x10, 0x20, 0x30, 0x00].getD i 0 }

/-- A validated 1x1 16-bit uncompressed image over an empty buffer
(`data_size = 0`): every pixel offset lies at or beyond the declared
length.  The byte fetch returns 0xFF everywhere, modelling non-zero
process memory beyond the buffer. -/
def s16trunc : dib_reader :=
  { width := 1, height := -1, depth := 16, compression := RGB,
    red_mask := 0, green_mask := 0, blue_mask := 0, alpha_mask := 0,
    stride := 2, data_size := 0,
    data := fun _ => 0xFF }

/-- A 1x4 16-bit bottom-up image (height 4), stride 2. -/
def s16bu : dib_reader :=
  { width := 1, height := 4, depth := 16, compression := RGB,
    red_mask := 0, green_mask := 0, blue_mask := 0, alpha_mask := 0,
    stride := 2, data_size := 8,
    data := fun i => i }

/-- The same image stored top-down (height -4). -/
def s16td : dib_reader := { s16bu with height := -4 }

/-- A base reader for the validation scenarios: passes every check. -/
def sOk : dib_reader :=
  { width := 4, height := 4, depth := 16, compression := RGB,
    red_mask := 0, green_mask := 0, blue_mask := 0, alpha_mask := 0,
    stride := 8, data_size := 32,
    data := fun _ => 0 }

/-- `sOk` with a negative width. -/
def sNegWidth : dib_reader := { sOk with width := -1 }

/-- `sOk` with width 2^31 - 1 (INT_MAX). -/
def sHugeWidth : dib_reader := { sOk with width := 2 ^ 31 - 1 }

/-- `sOk` with height magnitude exceeding 2^30. -/
def sHugeHeight : dib_reader := { sOk with height := 2 ^ 30 + 1 }

/-- `sOk` with an unsupported bit depth. -/
def sDepth8 : dib_reader := { sOk with depth := 8 }

/-- `sOk` with RLE8 compression. -/
def sRle8 : dib_reader := { sOk with compression := RLE8 }

/-- `sOk` with BitFields compression and a 9-bit contiguous red mask. -/
def sWideMask : dib_reader :=
  { sOk with compression := BitFields, red_mask := 0x1FF }

/-- A validated 32-bit uncompressed image (bpp = 4). -/
def s32demo : dib_reader :=
  { sOk with depth := 32, stride := 16, data_size := 64 }

end DibReader

namespace DibReader

/-! ### Helper lemmas -/

theorem nat_or_eq_zero (x y : Nat) : x ||| y = 0 ↔ x = 0 ∧ y = 0 := by
  constructor
  · intro h
    constructor <;> apply Nat.eq_of_testBit_eq <;> intro i <;>
      · have hb := congrArg (fun t => Nat.testBit t i) h
        simp only [Nat.testBit_or, Nat.zero_testBit, Bool.or_eq_false_iff] at hb
        simp [hb.1, hb.2]
  · rintro ⟨rfl, rfl⟩
    rfl

theorem ctz_go_shiftLeft (m : Nat) (hm : m % 2 = 1) :
    ∀ (s fuel : Nat), s < fuel → ctz_go fuel (m <<< s) = s := by
  intro s
  induction s with
  | zero =>
      intro fuel hfuel
      match fuel, hfuel with
      | fuel + 1, _ => simp [ctz_go, Nat.shiftLeft_zero, hm]
  | succ n ih =>
      intro fuel hfuel
      match fuel, hfuel with
      | fuel + 1, hfuel =>
        have hsplit : m <<< (n + 1) = 2 * (m <<< n) := by
          simp [Nat.shiftLeft_eq, Nat.pow_succ]
          ring
        have heven : ¬(m <<< (n + 1) % 2 = 1) := by
          rw [hsplit]
          omega
        have hdiv : m <<< (n + 1) / 2 = m <<< n := by
          rw [hsplit]
          exact Nat.mul_div_cancel_left _ (by norm_num)
        simp only [ctz_go, if_neg heven, hdiv]
        rw [ih fuel (by omega)]

theorem ctz_shiftLeft (m s : Nat) (hm : m % 2 = 1) (hs : s < 32) :
    ctz (m <<< s) = s :=
  ctz_go_shiftLeft m hm s 32 hs

theorem shiftLeft_shiftRight_cancel (x s : Nat) : (x <<< s) >>> s = x := by
  rw [Nat.shiftLeft_eq, Nat.shiftRight_eq_div_pow]
  exact Nat.mul_div_cancel x (Nat.two_pow_pos s)

theorem generate_scale_table_length (n : Nat) :
    (generate_scale_table n).length = n := by
  simp [generate_scale_table]

theorem scaleTable_length (w : Nat) : (scaleTable w).length = 2 ^ w := by
  simp [scaleTable, generate_scale_table_length, Nat.shiftLeft_eq]

theorem scaleTable_getD (w i : Nat) (h : i < 2 ^ w) :
    (scaleTable w).getD i 0 = i * 255 / (2 ^ w - 1) := by
  have hlen : i < (scaleTable w).length := by rw [scaleTable_length]; exact h
  rw [List.getD_eq_getElem _ _ hlen]
  simp [scaleTable, generate_scale_table, Nat.shiftLeft_eq]

theorem scaleTable_getD_zero (w : Nat) : (scaleTable w).getD 0 0 = 0 := by
  rw [scaleTable_getD w 0 (Nat.two_pow_pos w)]
  simp

theorem bind_table_eq (m : Nat) :
    bind_table m =
      if m = 255 then some (scaleTable 8)
      else if m = 127 then some (scaleTable 7)
      else if m = 63 then some (scaleTable 6)
      else if m = 31 then some (scaleTable 5)
      else if m = 15 then some (scaleTable 4)
      else if m = 7 then some (scaleTable 3)
      else if m = 3 then some (scaleTable 2)
      else if m = 1 then some (scaleTable 1)
      else none := by
  have h : List.range NUM_CONVERT_TABLES = [0, 1, 2, 3, 4, 5, 6, 7] := rfl
  simp only [bind_table, h, List.foldl_cons, List.foldl_nil]
  norm_num [Nat.shiftLeft_eq]

theorem bind_table_eq_none (m : Nat)
    (h : ∀ w, 1 ≤ w → w ≤ 8 → m ≠ 2 ^ w - 1) : bind_table m = none := by
  rw [bind_table_eq]
  have h1 := h 1 (by norm_num) (by norm_num)
  have h2 := h 2 (by norm_num) (by norm_num)
  have h3 := h 3 (by norm_num) (by norm_num)
  have h4 := h 4 (by norm_num) (by norm_num)
  have h5 := h 5 (by norm_num) (by norm_num)
  have h6 := h 6 (by norm_num) (by norm_num)
  have h7 := h 7 (by norm_num) (by norm_num)
  have h8 := h 8 (by norm_num) (by norm_num)
  norm_num at h1 h2 h3 h4 h5 h6 h7 h8
  simp [h1, h2, h3, h4, h5, h6, h7, h8]

theorem bind_table_cases (m : Nat) :
    bind_table m = none ∨
      ∃ w, 1 ≤ w ∧ w ≤ 8 ∧ bind_table m = some (scaleTable w) := by
  rw [bind_table_eq]
  split_ifs <;>
    first
      | exact Or.inl rfl
      | (refine Or.inr ⟨_, ?_, ?_, rfl⟩ <;> norm_num)

theorem channel_byte_mk_spec_zero (m : Nat) : channel_byte (mk_spec m) 0 = 0 := by
  rcases bind_table_cases (decode_bitfield m).2 with h | ⟨w, _, _, h⟩
  · simp [channel_byte, mk_spec, h]
  · have ht : (mk_spec m).table = some (scaleTable w) := h
    simp only [channel_byte, ht, Nat.zero_shiftRight, Nat.zero_and]
    rw [scaleTable_getD_zero]

theorem start_eq_mk (s : dib_reader) :
    ∃ mr mg mb ma,
      start s = ⟨mk_spec mr, mk_spec mg, mk_spec mb, mk_spec ma⟩ := by
  unfold start
  split_ifs <;> exact ⟨_, _, _, _, rfl⟩

theorem decode_pixel_argb_zero (s : dib_reader) :
    decode_pixel_argb (start s) 0 = [0, 0, 0, 0] := by
  obtain ⟨mr, mg, mb, ma, hst⟩ := start_eq_mk s
  rw [hst]
  simp [decode_pixel_argb, channel_byte_mk_spec_zero]

theorem decode_pixel_abgr_zero (s : dib_reader) :
    decode_pixel_abgr (start s) 0 = [0, 0, 0, 0] := by
  obtain ⟨mr, mg, mb, ma, hst⟩ := start_eq_mk s
  rw [hst]
  simp [decode_pixel_abgr, channel_byte_mk_spec_zero]

theorem read_pixels_length (g : Nat → List Nat) (hg : ∀ j, (g j).length = 4) :
    ∀ n, (read_pixels g n).length = 4 * n := by
  intro n
  induction n with
  | zero => rfl
  | succ n ih =>
      simp only [read_pixels, List.length_append, ih, hg]
      omega

theorem read_pixels_getD (g : Nat → List Nat) (hg : ∀ j, (g j).length = 4)
    (n i c : Nat) (hc : c < 4) (d : Nat) :
    (read_pixels g n).getD (4 * i + c) d = if i < n then (g i).getD c d else d := by
  induction n with
  | zero => simp [read_pixels]
  | succ n ih =>
      simp only [read_pixels]
      by_cases hi : i < n
      · rw [List.getD_append _ _ _ _
          (by rw [read_pixels_length g hg]; omega)]
        rw [ih, if_pos hi, if_pos (by omega)]
      · rw [List.getD_append_right _ _ _ _
          (by rw [read_pixels_length g hg]; omega)]
        rw [read_pixels_length g hg]
        by_cases hi2 : i = n
        · subst hi2
          have hidx : 4 * i + c - 4 * i = c := by omega
          rw [hidx, if_pos (by omega)]
        · have hidx : (g n).length ≤ 4 * i + c - 4 * n := by
            rw [hg]
            omega
          rw [List.getD_eq_default _ _ hidx, if_neg (by omega)]

theorem range'_disjoint_of_le (a n b m : Nat) (h : a + n ≤ b) :
    List.Disjoint (List.range' a n) (List.range' b m) := by
  intro k hk1 hk2
  rw [List.mem_range'_1] at hk1 hk2
  omega

end DibReader

namespace DibReader

/-! ### Claim theorems -/

/-- Claim C4: for every bit-width w in 1..8, the scale table built for
width w has exactly 2^w entries, entry i equals floor(i * 255 / (2^w - 1))
for every i below 2^w, entry 0 is 0, entry 2^w - 1 is 255, and the
entries are monotonically non-decreasing. -/
theorem C4_scale_table (w : Nat) (h1 : 1 ≤ w) (h8 : w ≤ 8) :
    (scaleTable w).length = 2 ^ w ∧
    (∀ i, i < 2 ^ w → (scaleTable w).getD i 0 = i * 255 / (2 ^ w - 1)) ∧
    (scaleTable w).getD 0 0 = 0 ∧
    (scaleTable w).getD (2 ^ w - 1) 0 = 255 ∧
    (∀ i j, i ≤ j → j < 2 ^ w →
      (scaleTable w).getD i 0 ≤ (scaleTable w).getD j 0) := by
  have h2 : 2 ≤ 2 ^ w := by
    calc 2 = 2 ^ 1 := by norm_num
    _ ≤ 2 ^ w := Nat.pow_le_pow_right (by norm_num) h1
  refine ⟨scaleTable_length w, fun i hi => scaleTable_getD w i hi,
    scaleTable_getD_zero w, ?_, ?_⟩
  · rw [scaleTable_getD w (2 ^ w - 1) (by omega)]
    exact Nat.mul_div_cancel_left 255 (by omega)
  · intro i j hij hj
    rw [scaleTable_getD w i (by omega), scaleTable_getD w j hj]
    exact Nat.div_le_div_right (Nat.mul_le_mul_right 255 hij)

/-- Witness for C4 at width 5. -/
theorem C4_witness :
    (scaleTable 5).length = 2 ^ 5 ∧
    (scaleTable 5).getD 0 0 = 0 ∧
    (scaleTable 5).getD (2 ^ 5 - 1) 0 = 255 ∧
    (scaleTable 5).getD 7 0 ≤ (scaleTable 5).getD 20 0 :=
  ⟨(C4_scale_table 5 (by norm_num) (by norm_num)).1,
   (C4_scale_table 5 (by norm_num) (by norm_num)).2.2.1,
   (C4_scale_table 5 (by norm_num) (by norm_num)).2.2.2.1,
   (C4_scale_table 5 (by norm_num) (by norm_num)).2.2.2.2 7 20
     (by norm_num) (by norm_num)⟩

/-- Claim C5: decode_bitfield 0 is (0, 0); for every non-zero 32-bit mask
with a single contiguous run of set bits (of width w starting at bit s),
the decoded shift s is the index of the lowest set bit and the reduced
mask shifted back left by the shift reproduces the original mask. -/
theorem C5_decode_bitfield :
    decode_bitfield 0 = (0, 0) ∧
    ∀ w s, 1 ≤ w → w + s ≤ 32 →
      decode_bitfield ((2 ^ w - 1) <<< s) = (s, 2 ^ w - 1) ∧
      (decode_bitfield ((2 ^ w - 1) <<< s)).2 <<<
          (decode_bitfield ((2 ^ w - 1) <<< s)).1 = (2 ^ w - 1) <<< s ∧
      ((2 ^ w - 1) <<< s).testBit s = true ∧
      ∀ j, j < s → ((2 ^ w - 1) <<< s).testBit j = false := by
  refine ⟨rfl, ?_⟩
  intro w s hw hws
  have h2 : 2 ≤ 2 ^ w := by
    calc 2 = 2 ^ 1 := by norm_num
    _ ≤ 2 ^ w := Nat.pow_le_pow_right (by norm_num) hw
  obtain ⟨k, hk⟩ : 2 ∣ 2 ^ w := dvd_pow_self 2 (by omega)
  have hodd : (2 ^ w - 1) % 2 = 1 := by omega
  have hne : (2 ^ w - 1) <<< s ≠ 0 := by
    rw [Nat.shiftLeft_eq]
    exact Nat.mul_ne_zero (by omega) (Nat.two_pow_pos s).ne'
  have hctz : ctz ((2 ^ w - 1) <<< s) = s :=
    ctz_shiftLeft _ _ hodd (by omega)
  have hdec : decode_bitfield ((2 ^ w - 1) <<< s) = (s, 2 ^ w - 1) := by
    rw [decode_bitfield, if_neg hne, hctz, shiftLeft_shiftRight_cancel]
  refine ⟨hdec, ?_, ?_, ?_⟩
  · rw [hdec]
  · rw [Nat.testBit_shiftLeft]
    simp [Nat.testBit_to_div_mod, hodd]
  · intro j hj
    rw [Nat.testBit_shiftLeft]
    simp [show ¬ s ≤ j by omega]

/-- Witness for C5: 5-bit run starting at bit 10 (the default 16-bit red
mask 0x7C00). -/
theorem C5_witness :
    decode_bitfield ((2 ^ 5 - 1) <<< 10) = (10, 2 ^ 5 - 1) ∧
    ((2 ^ 5 - 1) <<< 10).testBit 10 = true ∧
    ((2 ^ 5 - 1) <<< 10).testBit 9 = false :=
  ⟨(C5_decode_bitfield.2 5 10 (by norm_num) (by norm_num)).1,
   (C5_decode_bitfield.2 5 10 (by norm_num) (by norm_num)).2.2.1,
   (C5_decode_bitfield.2 5 10 (by norm_num) (by norm_num)).2.2.2 9
     (by norm_num)⟩

/-- Claim C9: for width indices i, j in 0..7, the slice of convert_table
designated by get_convert_table(i) starts at (2 << i) - 2 = 2^(i+1) - 2,
has 2^(i+1) entries, fits strictly inside the array of
(2 << 10) - 2 entries, and distinct indices designate disjoint slices,
so building one width's table never writes another width's entries and
never indexes out of bounds. -/
theorem C9_convert_table_ranges (i j : Nat) (hi : i < 8) (hj : j < 8)
    (hij : i ≠ j) :
    convert_table_index i = 2 ^ (i + 1) - 2 ∧
    table_entries i = 2 ^ (i + 1) ∧
    convert_table_index i + table_entries i ≤ convert_table_size ∧
    List.Disjoint (table_write_indices i) (table_write_indices j) ∧
    ∀ k, k ∈ table_write_indices i → k < convert_table_size := by
  have hidx : ∀ a : Nat, convert_table_index a = 2 ^ (a + 1) - 2 := by
    intro a
    simp [convert_table_index, Nat.shiftLeft_eq, Nat.pow_succ, Nat.mul_comm]
  have hent : ∀ a : Nat, table_entries a = 2 ^ (a + 1) := by
    intro a
    simp [table_entries, Nat.shiftLeft_eq]
  have hsize : convert_table_size = 2 ^ 11 - 2 := by
    norm_num [convert_table_size, NUM_CONVERT_TABLES, Nat.shiftLeft_eq]
  have hlow : ∀ a : Nat, 2 ≤ 2 ^ (a + 1) := by
    intro a
    calc 2 = 2 ^ 1 := by norm_num
    _ ≤ 2 ^ (a + 1) := Nat.pow_le_pow_right (by norm_num) (by omega)
  have hbound : ∀ a : Nat, a < 8 →
      convert_table_index a + table_entries a ≤ convert_table_size := by
    intro a ha
    have hpow : 2 ^ (a + 2) ≤ 2 ^ 11 :=
      Nat.pow_le_pow_right (by norm_num) (by omega)
    have hsum : 2 ^ (a + 2) = 2 * 2 ^ (a + 1) := by ring
    have hl := hlow a
    rw [hidx a, hent a, hsize]
    omega
  have hdisj2 : ∀ a b : Nat, a < b →
      List.Disjoint (table_write_indices a) (table_write_indices b) := by
    intro a b hab
    unfold table_write_indices
    apply range'_disjoint_of_le
    have hpow : 2 ^ (a + 2) ≤ 2 ^ (b + 1) :=
      Nat.pow_le_pow_right (by norm_num) (by omega)
    have hsum : 2 ^ (a + 2) = 2 * 2 ^ (a + 1) := by ring
    have hla := hlow a
    have hlb := hlow b
    rw [hidx a, hent a, hidx b]
    omega
  refine ⟨hidx i, hent i, hbound i hi, ?_, ?_⟩
  · rcases Nat.lt_or_ge i j with hlt | hge
    · exact hdisj2 i j hlt
    · exact fun a ha1 ha2 => hdisj2 j i (by omega) ha2 ha1
  · intro k hk
    rw [table_write_indices, List.mem_range'_1] at hk
    have := hbound i hi
    omega

/-- Witness for C9 at width indices 0 and 1. -/
theorem C9_witness :
    convert_table_index 0 = 2 ^ (0 + 1) - 2 ∧
    table_entries 0 = 2 ^ (0 + 1) ∧
    convert_table_index 0 + table_entries 0 ≤ convert_table_size ∧
    List.Disjoint (table_write_indices 0) (table_write_indices 1) ∧
    ∀ k, k ∈ table_write_indices 0 → k < convert_table_size :=
  C9_convert_table_ranges 0 1 (by norm_num) (by norm_num) (by norm_num)

/-- Claim C10, evaluated at the failing input: `read_fn_for_bpp` indexes
`read_fns[bpp]`, so bpp = 2 selects the 3-byte reader, bpp = 3 selects
the 4-byte reader, and bpp = 4 — the value produced by the validated
32-bit depth — indexes past the end of the 4-entry array (no reader at
all), contradicting the inline comments that pair index 1 with bpp 2,
index 2 with bpp 3 and index 3 with bpp 4.  The validated reader
`s32demo` (depth 32) therefore dispatches no read function and its row
read is undefined. -/
theorem C10_read_fn_dispatch :
    read_fn_for_bpp 0 = none ∧
    read_fn_for_bpp 1 = some ReadFn.r16 ∧
    read_fn_for_bpp 2 = some ReadFn.r24 ∧
    read_fn_for_bpp 3 = some ReadFn.r32 ∧
    read_fn_for_bpp 4 = none ∧
    ReadFn.r16.nbytes = 2 ∧ ReadFn.r24.nbytes = 3 ∧ ReadFn.r32.nbytes = 4 ∧
    check_format s32demo (start s32demo) = none ∧
    s32demo.bpp = 4 ∧
    read_line_argb s32demo (start s32demo) 0 = none := by
  decide

/-- Claim C8: the validated 1x1 uncompressed 24-bit reader `s24demo`
whose in-bounds pixel bytes are (0x10, 0x20, 0x30) produces the output
bytes (0x10, 0x20, 0x30, 0xFF) in BGRA memory order from read_line_argb
and (0x30, 0x20, 0x10, 0xFF) in RGBA memory order from read_line_abgr:
R = 0x30, G = 0x20, B = 0x10, synthesized alpha 0xFF. -/
theorem C8_pixel_decode :
    check_format s24demo (start s24demo) = none ∧
    read_line_argb s24demo (start s24demo) 0 = some [0x10, 0x20, 0x30, 0xFF] ∧
    read_line_abgr s24demo (start s24demo) 0 = some [0x30, 0x20, 0x10, 0xFF] := by
  decide

end DibReader

namespace DibReader

/-- Claim C1 (amended): a pixel is zero-filled exactly when its byte
offset is at or beyond `data_size + bpp`; such a pixel decodes to the
four output bytes (0,0,0,0) in both channel orders and no buffer byte is
dereferenced for it.  (Offsets in [data_size, data_size + bpp) pass the
deliberate bound `offset < data_size + bpp` and are decoded from bytes
beyond the declared length; see the counterexample.) -/
theorem C1_zero_fill (s : dib_reader) (row : Int) (i : Nat) (f : ReadFn)
    (hf : read_fn_for_bpp s.bpp = some f)
    (h : s.data_size + s.bpp ≤ pixel_offset s row i) :
    read_pixel s f (pixel_offset s row i) = 0 ∧
    decode_pixel_argb (start s) (read_pixel s f (pixel_offset s row i)) =
      [0, 0, 0, 0] ∧
    decode_pixel_abgr (start s) (read_pixel s f (pixel_offset s row i)) =
      [0, 0, 0, 0] ∧
    pixel_read_offsets s f (pixel_offset s row i) = [] := by
  have ho : ¬(pixel_offset s row i < s.data_size + s.bpp) := by omega
  have hz : read_pixel s f (pixel_offset s row i) = 0 := by
    simp [read_pixel, ho]
  refine ⟨hz, ?_, ?_, ?_⟩
  · rw [hz]
    exact decode_pixel_argb_zero s
  · rw [hz]
    exact decode_pixel_abgr_zero s
  · simp [pixel_read_offsets, ho]

/-- Witness for C1: in `s16trunc`, pixel 0 of row 5 sits past
`data_size + bpp` and is zero-filled without any buffer access. -/
theorem C1_witness :
    read_fn_for_bpp s16trunc.bpp = some ReadFn.r24 ∧
    s16trunc.data_size + s16trunc.bpp ≤ pixel_offset s16trunc 5 0 ∧
    read_pixel s16trunc ReadFn.r24 (pixel_offset s16trunc 5 0) = 0 ∧
    decode_pixel_argb (start s16trunc)
      (read_pixel s16trunc ReadFn.r24 (pixel_offset s16trunc 5 0)) =
      [0, 0, 0, 0] ∧
    decode_pixel_abgr (start s16trunc)
      (read_pixel s16trunc ReadFn.r24 (pixel_offset s16trunc 5 0)) =
      [0, 0, 0, 0] ∧
    pixel_read_offsets s16trunc ReadFn.r24 (pixel_offset s16trunc 5 0) = [] := by
  have h1 : read_fn_for_bpp s16trunc.bpp = some ReadFn.r24 := by decide
  have h2 : s16trunc.data_size + s16trunc.bpp ≤ pixel_offset s16trunc 5 0 := by
    decide
  obtain ⟨a, b, c, d⟩ := C1_zero_fill s16trunc 5 0 ReadFn.r24 h1 h2
  exact ⟨h1, h2, a, b, c, d⟩

/-- Counterexample to claim C1 as stated: in the validated reader
`s16trunc` the single pixel of row 0 has byte offset 0, which is at the
buffer's declared length (`data_size = 0`), yet the pixel is not
zero-filled — the guard `offset < data_size + bpp` admits it, the
dispatched reader dereferences offsets 0, 1, 2 (all at or beyond the
declared length), and the decoded chunk is (255,255,255,255), not
(0,0,0,0). -/
theorem C1_counterexample :
    check_format s16trunc (start s16trunc) = none ∧
    s16trunc.data_size = 0 ∧
    pixel_offset s16trunc 0 0 = 0 ∧
    read_fn_for_bpp s16trunc.bpp = some ReadFn.r24 ∧
    pixel_read_offsets s16trunc ReadFn.r24 (pixel_offset s16trunc 0 0) =
      [0, 1, 2] ∧
    read_line_argb s16trunc (start s16trunc) 0 = some [255, 255, 255, 255] ∧
    read_line_argb s16trunc (start s16trunc) 0 ≠ some [0, 0, 0, 0] := by
  decide

/-- Claim C2: the output alpha byte of every decoded pixel, in both
channel orders, is 0xFF exactly when one of the three scaled color
channel bytes is non-zero, and the entire row output is invariant under
the decoded alpha channel spec (shift, mask and bound table), so alpha
bits of the source pixel word are never consulted as alpha. -/
theorem C2_alpha_policy :
    (∀ (sp : Specs) (pixel : Nat),
        (decode_pixel_argb sp pixel).getD 3 0 =
          (if (decode_pixel_argb sp pixel).getD 2 0 ≠ 0 ∨
              (decode_pixel_argb sp pixel).getD 1 0 ≠ 0 ∨
              (decode_pixel_argb sp pixel).getD 0 0 ≠ 0
            then 255 else 0) ∧
        (decode_pixel_abgr sp pixel).getD 3 0 =
          (if (decode_pixel_abgr sp pixel).getD 0 0 ≠ 0 ∨
              (decode_pixel_abgr sp pixel).getD 1 0 ≠ 0 ∨
              (decode_pixel_abgr sp pixel).getD 2 0 ≠ 0
            then 255 else 0)) ∧
    (∀ (s : dib_reader) (r g b a a' : ChannelSpec) (row : Int),
        read_line_argb s ⟨r, g, b, a⟩ row = read_line_argb s ⟨r, g, b, a'⟩ row ∧
        read_line_abgr s ⟨r, g, b, a⟩ row = read_line_abgr s ⟨r, g, b, a'⟩ row) := by
  constructor
  · intro sp pixel
    have key : ∀ x y z : Nat, ((x ||| y ||| z) ≠ 0 ↔ (x ≠ 0 ∨ y ≠ 0 ∨ z ≠ 0)) := by
      intro x y z
      rw [Ne, nat_or_eq_zero, nat_or_eq_zero]
      tauto
    constructor
    · simp only [decode_pixel_argb, List.getD_cons_zero, List.getD_cons_succ]
      exact if_congr (key _ _ _) rfl rfl
    · simp only [decode_pixel_abgr, List.getD_cons_zero, List.getD_cons_succ]
      exact if_congr (key _ _ _) rfl rfl
  · intro s r g b a a' row
    constructor <;> rfl

/-- A channel whose table member equals the binding-loop result for a
mask that matches no scale table decodes every pixel to byte 0. -/
theorem channel_byte_unbound (c : ChannelSpec) (pixel : Nat)
    (hc : c.table = bind_table c.mask)
    (hm : ∀ w, 1 ≤ w → w ≤ 8 → c.mask ≠ 2 ^ w - 1) :
    channel_byte c pixel = 0 := by
  simp [channel_byte, hc, bind_table_eq_none c.mask hm]

/-- Claim C6: a color channel whose decoded mask is 0 or does not equal
2^w - 1 for any w in 1..8 receives no scale table from the binding loop
and contributes the byte 0 to the output for that channel, in both
channel orders, for every pixel (and, for the red channel, at every
byte position 4i+2 of a full read_line_argb row). -/
theorem C6_unbound_channel (sp : Specs) (pixel : Nat) :
    (sp.r.table = bind_table sp.r.mask →
      (∀ w, 1 ≤ w → w ≤ 8 → sp.r.mask ≠ 2 ^ w - 1) →
      channel_byte sp.r pixel = 0 ∧
      (decode_pixel_argb sp pixel).getD 2 0 = 0 ∧
      (decode_pixel_abgr sp pixel).getD 0 0 = 0 ∧
      ∀ (s : dib_reader) (row : Int) (out : List Nat) (i : Nat),
        read_line_argb s sp row = some out → out.getD (4 * i + 2) 0 = 0) ∧
    (sp.g.table = bind_table sp.g.mask →
      (∀ w, 1 ≤ w → w ≤ 8 → sp.g.mask ≠ 2 ^ w - 1) →
      channel_byte sp.g pixel = 0 ∧
      (decode_pixel_argb sp pixel).getD 1 0 = 0 ∧
      (decode_pixel_abgr sp pixel).getD 1 0 = 0) ∧
    (sp.b.table = bind_table sp.b.mask →
      (∀ w, 1 ≤ w → w ≤ 8 → sp.b.mask ≠ 2 ^ w - 1) →
      channel_byte sp.b pixel = 0 ∧
      (decode_pixel_argb sp pixel).getD 0 0 = 0 ∧
      (decode_pixel_abgr sp pixel).getD 2 0 = 0) := by
  refine ⟨?_, ?_, ?_⟩
  · intro hc hm
    refine ⟨channel_byte_unbound sp.r pixel hc hm, ?_, ?_, ?_⟩
    · simp only [decode_pixel_argb, List.getD_cons_zero, List.getD_cons_succ]
      exact channel_byte_unbound sp.r pixel hc hm
    · simp only [decode_pixel_abgr, List.getD_cons_zero, List.getD_cons_succ]
      exact channel_byte_unbound sp.r pixel hc hm
    · intro s row out i hline
      rcases hfn : read_fn_for_bpp s.bpp with _ | f
      · rw [read_line_argb, hfn] at hline
        simp at hline
      · rw [read_line_argb, hfn] at hline
        simp only [Option.map_some', Option.some.injEq] at hline
        subst hline
        rw [read_pixels_getD
          (fun k => decode_pixel_argb sp (read_pixel s f (pixel_offset s row k)))
          (fun j => rfl) s.width.toNat i 2 (by norm_num) 0]
        split
        · simp only [decode_pixel_argb, List.getD_cons_zero, List.getD_cons_succ]
          exact channel_byte_unbound sp.r _ hc hm
        · rfl
  · intro hc hm
    refine ⟨channel_byte_unbound sp.g pixel hc hm, ?_, ?_⟩
    · simp only [decode_pixel_argb, List.getD_cons_zero, List.getD_cons_succ]
      exact channel_byte_unbound sp.g pixel hc hm
    · simp only [decode_pixel_abgr, List.getD_cons_zero, List.getD_cons_succ]
      exact channel_byte_unbound sp.g pixel hc hm
  · intro hc hm
    refine ⟨channel_byte_unbound sp.b pixel hc hm, ?_, ?_⟩
    · simp only [decode_pixel_argb, List.getD_cons_zero, List.getD_cons_succ]
      exact channel_byte_unbound sp.b pixel hc hm
    · simp only [decode_pixel_abgr, List.getD_cons_zero, List.getD_cons_succ]
      exact channel_byte_unbound sp.b pixel hc hm

/-- Witness for C6: the non-contiguous mask 5 binds no table, so the
channel byte of an all-ones pixel is still 0. -/
theorem C6_witness : channel_byte ⟨0, 5, bind_table 5⟩ 0xFFFF = 0 := by
  have hm : ∀ w, 1 ≤ w → w ≤ 8 → (5 : Nat) ≠ 2 ^ w - 1 := by
    intro w h1 h8
    interval_cases w <;> norm_num
  exact ((C6_unbound_channel
    ⟨⟨0, 5, bind_table 5⟩, ⟨0, 0, bind_table 0⟩, ⟨0, 0, bind_table 0⟩,
      ⟨0, 0, none⟩⟩ 0xFFFF).1 rfl hm).1

/-- Claim C7: the source scanline is the requested row itself for
negative (top-down) heights and `height - 1 - row` otherwise, so a
bottom-up image of height h > 0 produces, for row r, exactly the bytes
the corresponding top-down image produces for row h - 1 - r; with
height -4 row 0 starts at byte offset 0 (the first stored scanline) and
with height 4 row 0 starts at byte offset stride * 3 (the last stored
scanline, index 3). -/
theorem C7_row_mapping :
    (∀ (s : dib_reader) (sp : Specs) (row : Int), 0 < s.height →
        read_line_argb s sp row =
          read_line_argb { s with height := -s.height } sp (s.height - 1 - row) ∧
        read_line_abgr s sp row =
          read_line_abgr { s with height := -s.height } sp (s.height - 1 - row)) ∧
    (∀ height row : Int, height < 0 → scan_line height row = row) ∧
    (∀ height row : Int, 0 ≤ height → scan_line height row = height - 1 - row) ∧
    scan_line (-4) 0 = 0 ∧
    scan_line 4 0 = 3 ∧
    s16bu.stride = 2 ∧
    pixel_offset s16td 0 0 = 0 ∧
    pixel_offset s16bu 0 0 = 6 := by
  refine ⟨?_, ?_, ?_, by decide, by decide, by decide, by decide, by decide⟩
  · intro s sp row h
    have h1 : scan_line s.height row = s.height - 1 - row := by
      rw [scan_line, if_neg (by omega)]
    have h2 : scan_line (-s.height) (s.height - 1 - row) = s.height - 1 - row := by
      rw [scan_line, if_pos (by omega)]
    constructor <;> simp [read_line_argb, read_line_abgr, pixel_offset, h1, h2,
      read_pixel, dib_reader.bpp]
  · intro height row h
    rw [scan_line, if_pos h]
  · intro height row h
    rw [scan_line, if_neg (by omega)]

/-- Witness for C7: `s16bu` (height 4) row 1 equals the top-down image's
row 2, and the scanline formulas at concrete arguments. -/
theorem C7_witness :
    read_line_argb s16bu (start s16bu) 1 =
      read_line_argb { s16bu with height := -s16bu.height } (start s16bu)
        (s16bu.height - 1 - 1) ∧
    scan_line (-4) 2 = 2 ∧
    scan_line 4 2 = 1 := by
  have h := C7_row_mapping
  refine ⟨(h.1 s16bu (start s16bu) 1 (by decide)).1, h.2.1 (-4) 2 (by decide),
    h.2.2.1 4 2 (by decide)⟩

end DibReader

namespace DibReader

/-- Claim C3: check_format checks in a fixed order and returns the first
failing reason — negative width; width or |height| exceeding 2^30
(0x40000000); depth outside {16,24,32}; compression outside
{RGB, BitFields}; any decoded channel mask wider than 8 bits
(maxmask = (1 << NUM_CONVERT_TABLES) - 1 = 255).  Width -1,
width 2^31 - 1, |height| > 2^30, depth 8, RLE8 compression and a 9-bit
contiguous mask are each rejected with one of five pairwise-distinct
reason strings, and an input passing all five checks is accepted. -/
theorem C3_check_format_order :
    ((0x40000000 : Int) = 2 ^ 30) ∧
    ((1 <<< NUM_CONVERT_TABLES) - 1 = 255) ∧
    (∀ (s : dib_reader) (sp : Specs), s.width < 0 →
        check_format s sp = some "Image width less than zero") ∧
    (∀ (s : dib_reader) (sp : Specs), 0 ≤ s.width →
        (2 ^ 30 < s.width ∨ s.height < -(2 ^ 30) ∨ 2 ^ 30 < s.height) →
        check_format s sp = some "Image dimensions out of bounds") ∧
    (∀ (s : dib_reader) (sp : Specs), 0 ≤ s.width → s.width ≤ 2 ^ 30 →
        -(2 ^ 30) ≤ s.height → s.height ≤ 2 ^ 30 →
        ¬(s.depth = 16 ∨ s.depth = 24 ∨ s.depth = 32) →
        check_format s sp = some "Unsupported bit depth") ∧
    (∀ (s : dib_reader) (sp : Specs), 0 ≤ s.width → s.width ≤ 2 ^ 30 →
        -(2 ^ 30) ≤ s.height → s.height ≤ 2 ^ 30 →
        (s.depth = 16 ∨ s.depth = 24 ∨ s.depth = 32) →
        ¬(s.compression = RGB ∨ s.compression = BitFields) →
        check_format s sp = some "Unsupported compression") ∧
    (∀ (s : dib_reader) (sp : Specs), 0 ≤ s.width → s.width ≤ 2 ^ 30 →
        -(2 ^ 30) ≤ s.height → s.height ≤ 2 ^ 30 →
        (s.depth = 16 ∨ s.depth = 24 ∨ s.depth = 32) →
        (s.compression = RGB ∨ s.compression = BitFields) →
        (255 < sp.r.mask ∨ 255 < sp.g.mask ∨ 255 < sp.b.mask ∨ 255 < sp.a.mask) →
        check_format s sp = some "Bit mask too long") ∧
    (∀ (s : dib_reader) (sp : Specs), 0 ≤ s.width → s.width ≤ 2 ^ 30 →
        -(2 ^ 30) ≤ s.height → s.height ≤ 2 ^ 30 →
        (s.depth = 16 ∨ s.depth = 24 ∨ s.depth = 32) →
        (s.compression = RGB ∨ s.compression = BitFields) →
        sp.r.mask ≤ 255 → sp.g.mask ≤ 255 → sp.b.mask ≤ 255 → sp.a.mask ≤ 255 →
        check_format s sp = none) ∧
    check_format sNegWidth (start sNegWidth) = some "Image width less than zero" ∧
    check_format sHugeWidth (start sHugeWidth) =
      some "Image dimensions out of bounds" ∧
    check_format sHugeHeight (start sHugeHeight) =
      some "Image dimensions out of bounds" ∧
    check_format sDepth8 (start sDepth8) = some "Unsupported bit depth" ∧
    check_format sRle8 (start sRle8) = some "Unsupported compression" ∧
    check_format sWideMask (start sWideMask) = some "Bit mask too long" ∧
    check_format sOk (start sOk) = none ∧
    List.Pairwise (fun x y => x ≠ y)
      ["Image width less than zero", "Image dimensions out of bounds",
        "Unsupported bit depth", "Unsupported compression",
        "Bit mask too long"] := by
  have hmax : (1 <<< NUM_CONVERT_TABLES) - 1 = 255 := by
    norm_num [NUM_CONVERT_TABLES, Nat.shiftLeft_eq]
  refine ⟨by norm_num, hmax, ?_, ?_, ?_, ?_, ?_, ?_,
    by decide, by decide, by decide, by decide, by decide, by decide, by decide,
    by decide⟩
  · intro s sp h
    rw [check_format, if_pos h]
  · intro s sp h0 hdim
    rw [check_format, if_neg (by omega), if_pos (by omega)]
  · intro s sp h0 h1 h2 h3 hd
    rw [check_format, if_neg (by omega), if_neg (by omega), if_pos hd]
  · intro s sp h0 h1 h2 h3 hd hc
    rw [check_format, if_neg (by omega), if_neg (by omega),
      if_neg (not_not_intro hd), if_pos hc]
  · intro s sp h0 h1 h2 h3 hd hc hmask
    rw [check_format, if_neg (by omega), if_neg (by omega),
      if_neg (not_not_intro hd), if_neg (not_not_intro hc),
      if_pos (by rw [hmax]; omega)]
  · intro s sp h0 h1 h2 h3 hd hc hr hg hb ha
    rw [check_format, if_neg (by omega), if_neg (by omega),
      if_neg (not_not_intro hd), if_neg (not_not_intro hc),
      if_neg (by rw [hmax]; omega)]

/-- Witness for C3: the width check fires on `sNegWidth` and `sOk`
passes all five checks. -/
theorem C3_witness :
    check_format sNegWidth (start sNegWidth) =
      some "Image width less than zero" ∧
    check_format sOk (start sOk) = none := by
  have h := C3_check_format_order
  refine ⟨h.2.2.1 sNegWidth (start sNegWidth) (by decide),
    h.2.2.2.2.2.2.2.1 sOk (start sOk) (by decide) (by decide) (by decide)
      (by decide) (by decide) (by decide) (by decide) (by decide) (by decide)
      (by decide)⟩

end DibReader
